import Mathlib

/-!
Shallow embedding of the apply-env template engine, translated from
src/src/lib.rs and src/src/main.rs.

Strings are modelled as lists of Unicode scalar values (`List Char`);
byte positions are recovered through `Char.utf8Size`, so the byte-indexed
slicing performed by `is_helm_wrapped` is modelled exactly, including the
Rust panic raised by a slice whose boundary falls inside a multi-byte
character (modelled as `none`).  The regex character classes `\w` and `\s`
are Unicode-aware in the regex crate; the concrete scanner uses their ASCII
restrictions, and every statement whose truth depends on the exact classes is
proved generically in the class predicates (`matchAtC`, `renderLoopC`), the
program being the instance at the crate's Unicode tables.
-/

namespace ApplyEnv

/-- The left brace character. -/
def lbrace : Char := Char.ofNat 123

/-- The right brace character. -/
def rbrace : Char := Char.ofNat 125

/-- The backtick character used by the helm wrap markers. -/
def btick : Char := Char.ofNat 96

/-- The double-quote character. -/
def dquote : Char := Char.ofNat 34

/-- The single-quote character. -/
def squote : Char := Char.ofNat 39

/-- The ASCII word characters (letters, digits, underscore): an ASCII
under-approximation of the regex class `\w`, which is Unicode-aware in the
regex crate.  Statements whose truth depends on the exact class are proved
generically in the class predicate (see `matchAtC`). -/
def isWordChar (c : Char) : Bool := c.isAlphanum || c = '_'

/-- The ASCII whitespace characters: an ASCII under-approximation of the
Unicode-aware regex class `\s` (see `matchAtC` for the generic treatment). -/
def isSpaceChar (c : Char) : Bool :=
  c = ' ' || c = '\t' || c = '\n' || c = '\r' || c = Char.ofNat 11 || c = Char.ofNat 12

/-- UTF-8 byte length of a string, as computed by Rust `str::len`. -/
def byteLen (l : List Char) : Nat := (l.map Char.utf8Size).sum

/-- Drop the first `n` bytes of a string; `none` when byte offset `n` is not a
character boundary (the situation in which a Rust byte slice panics). -/
def dropBytes : List Char → Nat → Option (List Char)
  | l, 0 => some l
  | [], _ + 1 => none
  | c :: rest, n + 1 =>
    if c.utf8Size ≤ n + 1 then dropBytes rest (n + 1 - c.utf8Size) else none

/-- Take the first `n` bytes of a string; `none` when byte offset `n` is not a
character boundary. -/
def takeBytes : List Char → Nat → Option (List Char)
  | _, 0 => some []
  | [], _ + 1 => none
  | c :: rest, n + 1 =>
    if c.utf8Size ≤ n + 1 then (takeBytes rest (n + 1 - c.utf8Size)).map (c :: ·) else none

/-- The byte slice `content[a..b]` of Rust; `none` models the panic on a slice
boundary that is not a character boundary. -/
def sliceBytes (content : List Char) (a b : Nat) : Option (List Char) :=
  (dropBytes content a).bind (fun r => takeBytes r (b - a))

/-- Port of `is_helm_wrapped` (src/src/lib.rs lines 61-69).  `start` and `stop`
are byte offsets of the inner match span.  Returns `some false` whenever the
span is within 3 bytes of either end of the text; otherwise inspects the three
bytes before and after the span, short-circuiting like the Rust `&&`.
`none` models the Rust panic when a byte slice does not fall on character
boundaries, which happens with multi-byte characters around the span. -/
def is_helm_wrapped (content : List Char) (start stop : Nat) : Option Bool :=
  if start < 3 || stop + 3 > byteLen content then
    some false
  else
    match sliceBytes content (start - 3) start with
    | none => none
    | some pre =>
      if pre = [lbrace, lbrace, btick] then
        match sliceBytes content stop (stop + 3) with
        | none => none
        | some post => some (post = [btick, rbrace, rbrace])
      else some false

/-- Rust `str::replace` with a single-character pattern: every occurrence of
`c` is replaced by the string `t`. -/
def replaceChar (c : Char) (t : List Char) : List Char → List Char
  | [] => []
  | x :: xs => if x = c then t ++ replaceChar c t xs else x :: replaceChar c t xs

/-- Port of `escape_special_chars` (src/src/lib.rs lines 49-59): the seven
literal substitutions applied in the source order. -/
def escape_special_chars (orig : List Char) : List Char :=
  let s1 := replaceChar '\\' ['\\', '\\'] orig
  let s2 := replaceChar dquote ['\\', dquote] s1
  let s3 := replaceChar '\n' ['\\', 'n'] s2
  let s4 := replaceChar '\r' ['\\', 'r'] s3
  let s5 := replaceChar (Char.ofNat 8) ['\\', 'b'] s4
  let s6 := replaceChar (Char.ofNat 12) ['\\', 'f'] s5
  replaceChar '\t' ['\\', 't'] s6

/-- One anchored attempt of the placeholder regex
`(?ix)(\x7b\x7b\s*)(\w+)(\s*\x7d\x7d)` at the head of `l`.  The character
classes are disjoint from the literal braces that follow them, so the regex
engine's behaviour at a position is this deterministic greedy scan.  Returns
`(orig, name, rest)`: the full matched text, the captured name and the
remaining suffix. -/
def matchAt : List Char → Option (List Char × List Char × List Char)
  | c1 :: c2 :: rest =>
    if c1 = lbrace ∧ c2 = lbrace then
      let ws1 := rest.takeWhile isSpaceChar
      let r1 := rest.dropWhile isSpaceChar
      let name := r1.takeWhile isWordChar
      let r2 := r1.dropWhile isWordChar
      if name = [] then none
      else
        let ws2 := r2.takeWhile isSpaceChar
        match r2.dropWhile isSpaceChar with
        | d1 :: d2 :: r4 =>
          if d1 = rbrace ∧ d2 = rbrace then
            some (c1 :: c2 :: (ws1 ++ name ++ ws2 ++ [d1, d2]), name, r4)
          else none
        | _ => none
    else none
  | _ => none

/-- Configuration record, port of `TemplateConfig` (src/src/lib.rs lines 14-22). -/
structure TemplateConfig where
  file_name : Option (List Char)
  rewrite : Bool
  helm_only : Bool
  escape : Bool
  default : Option (List Char)
  debug : Bool
  deriving DecidableEq

/-- One debug trace line printed by `render_template_with_lookup` when
`cfg.debug` holds: the match index, the original text and the chosen
replacement (colour codes elided). -/
inductive TraceEvent where
  | applied (i : Nat) (orig val : List Char)
  | appliedDefault (i : Nat) (orig dflt : List Char)
  | keptAsIs (i : Nat) (orig : List Char)
  deriving DecidableEq

/-- The helm compatibility wrapper produced by
`format!("\x7b\x7b\x7b\x7b`\x7b\x7d`\x7d\x7d\x7d\x7d", orig)`. -/
def helmWrap (orig : List Char) : List Char :=
  lbrace :: lbrace :: btick :: (orig ++ [btick, rbrace, rbrace])

/-- The per-match replacement decision of `render_template_with_lookup`
(src/src/lib.rs lines 95-151): the helm-only branch with the wrap check, and
the normal branch with lookup, escape, default and keep-as-is.  Returns the
replacement together with the debug trace it prints; `none` models the panic
propagated out of `is_helm_wrapped`. -/
def stepResult (cfg : TemplateConfig) (lookup : List Char → Option (List Char))
    (content : List Char) (i start stop : Nat) (orig name : List Char) :
    Option (List Char × List TraceEvent) :=
  if cfg.helm_only then
    match is_helm_wrapped content start stop with
    | none => none
    | some true => some (orig, [])
    | some false =>
      let val := helmWrap orig
      some (val, if cfg.debug then [TraceEvent.applied i orig val] else [])
  else
    match lookup name with
    | some v =>
      let v2 := if cfg.escape then escape_special_chars v else v
      some (v2, if cfg.debug then [TraceEvent.applied i orig v2] else [])
    | none =>
      match cfg.default with
      | some d => some (d, if cfg.debug then [TraceEvent.appliedDefault i orig d] else [])
      | none => some (orig, if cfg.debug then [TraceEvent.keptAsIs i orig] else [])

/-- The scan loop of `render_template_with_lookup`: walks the remaining suffix
`l` (whose first character sits at byte offset `off` of `content`), emits
unmatched characters verbatim, and at each leftmost regex match emits the
replacement decided by `stepResult` and continues after the match, exactly as
the `captures_iter` loop does.  `fuel` bounds the recursion and is always
instantiated with at least `l.length`, which suffices. -/
def renderLoopF (cfg : TemplateConfig) (lookup : List Char → Option (List Char))
    (content : List Char) :
    Nat → List Char → Nat → Nat → Option (List Char × List TraceEvent)
  | 0, l, _, _ => if l.isEmpty then some ([], []) else none
  | _ + 1, [], _, _ => some ([], [])
  | fuel + 1, c :: rest, off, i =>
    match matchAt (c :: rest) with
    | some (orig, _name, after) =>
      let stop := off + byteLen orig
      match stepResult cfg lookup content i off stop orig _name with
      | none => none
      | some (repl, tr) =>
        (renderLoopF cfg lookup content fuel after stop (i + 1)).map
          (fun p => (repl ++ p.1, tr ++ p.2))
    | none =>
      (renderLoopF cfg lookup content fuel rest (off + c.utf8Size) i).map
        (fun p => (c :: p.1, p.2))

/-- Port of `render_template_with_lookup` (src/src/lib.rs lines 71-160).
Returns the rendered string together with the debug trace, or `none` when the
Rust code panics (byte slicing inside `is_helm_wrapped` on a non-boundary). -/
def render_template_with_lookup (template : List Char) (cfg : TemplateConfig)
    (lookup : List Char → Option (List Char)) : Option (List Char × List TraceEvent) :=
  if template.isEmpty then some ([], [])
  else renderLoopF cfg lookup template template.length template 0 0

/-- Any suffix left after a successful anchored match is strictly shorter than
the input, because the match consumes at least the two braces on either side
and a nonempty name. -/
theorem matchAt_after_length {l orig name after : List Char}
    (h : matchAt l = some (orig, name, after)) : after.length < l.length := by
  match l with
  | [] => simp [matchAt] at h
  | [c] => simp [matchAt] at h
  | c1 :: c2 :: rest =>
    simp only [matchAt] at h
    split at h
    · split at h
      · exact absurd h (by simp)
      · split at h
        case _ d1 d2 r4 heq =>
          split at h
          · have hlen : (d1 :: d2 :: r4).length ≤ rest.length := by
              calc (d1 :: d2 :: r4).length
                  = (((rest.dropWhile isSpaceChar).dropWhile isWordChar).dropWhile
                      isSpaceChar).length := by rw [heq]
                _ ≤ ((rest.dropWhile isSpaceChar).dropWhile isWordChar).length :=
                    (List.dropWhile_sublist _).length_le
                _ ≤ (rest.dropWhile isSpaceChar).length :=
                    (List.dropWhile_sublist _).length_le
                _ ≤ rest.length := (List.dropWhile_sublist _).length_le
            have hafter : after = r4 := by
              simp only [Option.some.injEq, Prod.mk.injEq] at h
              exact h.2.2.symm
            subst hafter
            simp only [List.length_cons] at hlen ⊢
            omega
          · exact absurd h (by simp)
        case _ r3 hne heq => exact absurd h (by simp)
    · exact absurd h (by simp)

/-- The loop returns immediately on an exhausted suffix, whatever the fuel. -/
theorem renderLoopF_nil (cfg : TemplateConfig) (lookup : List Char → Option (List Char))
    (content : List Char) (fuel off i : Nat) :
    renderLoopF cfg lookup content fuel [] off i = some ([], []) := by
  cases fuel <;> simp [renderLoopF]

/-- Two optional results with equal first components stay equal under
appending a common replacement, whatever the traces. -/
theorem map_fst_append_congr {oA oB : Option (List Char × List TraceEvent)}
    (repl : List Char) (trA trB : List TraceEvent)
    (h : oA.map Prod.fst = oB.map Prod.fst) :
    ((oA.map (fun p => (repl ++ p.1, trA ++ p.2))).map Prod.fst)
      = ((oB.map (fun p => (repl ++ p.1, trB ++ p.2))).map Prod.fst) := by
  cases oA <;> cases oB <;> simp_all

/-- The scan loop consults the configuration and the lookup function only
through `stepResult`; two runs whose per-match decisions agree on the
replacement (and on panicking) produce the same output string. -/
theorem renderLoopF_fst_congr (cfgA cfgB : TemplateConfig)
    (fA fB : List Char → Option (List Char)) (content : List Char)
    (hstep : ∀ i start stop orig name,
      (stepResult cfgA fA content i start stop orig name).map Prod.fst
        = (stepResult cfgB fB content i start stop orig name).map Prod.fst) :
    ∀ fuel l off i,
      (renderLoopF cfgA fA content fuel l off i).map Prod.fst
        = (renderLoopF cfgB fB content fuel l off i).map Prod.fst := by
  intro fuel
  induction fuel with
  | zero => intro l off i; simp [renderLoopF]
  | succ fuel ih =>
    intro l off i
    cases l with
    | nil => simp [renderLoopF]
    | cons c rest =>
      simp only [renderLoopF]
      cases hm : matchAt (c :: rest) with
      | none =>
        have hrec := ih rest (off + c.utf8Size) i
        cases hA : renderLoopF cfgA fA content fuel rest (off + c.utf8Size) i with
        | none =>
          cases hB : renderLoopF cfgB fB content fuel rest (off + c.utf8Size) i with
          | none => simp
          | some q => rw [hA, hB] at hrec; simp at hrec
        | some p =>
          cases hB : renderLoopF cfgB fB content fuel rest (off + c.utf8Size) i with
          | none => rw [hA, hB] at hrec; simp at hrec
          | some q =>
            rw [hA, hB] at hrec
            simp only [Option.map_some', Option.some.injEq] at hrec
            simp [hrec]
      | some r =>
        obtain ⟨orig, name, after⟩ := r
        dsimp only
        have hs := hstep i off (off + byteLen orig) orig name
        cases hsA : stepResult cfgA fA content i off (off + byteLen orig) orig name with
        | none =>
          cases hsB : stepResult cfgB fB content i off (off + byteLen orig) orig name with
          | none => rfl
          | some q => rw [hsA, hsB] at hs; simp at hs
        | some p =>
          cases hsB : stepResult cfgB fB content i off (off + byteLen orig) orig name with
          | none => rw [hsA, hsB] at hs; simp at hs
          | some q =>
            obtain ⟨replA, trA⟩ := p
            obtain ⟨replB, trB⟩ := q
            rw [hsA, hsB] at hs
            simp only [Option.map_some', Option.some.injEq] at hs
            dsimp only
            rw [hs]
            exact map_fst_append_congr replB trA trB (ih after (off + byteLen orig) (i + 1))

/-- The replacement chosen by a step does not depend on the debug flag; only
the emitted trace does. -/
theorem stepResult_fst_debug (fname : Option (List Char)) (rewr helm esc : Bool)
    (dflt : Option (List Char)) (d₁ d₂ : Bool)
    (lookup : List Char → Option (List Char)) (content : List Char)
    (i start stop : Nat) (orig name : List Char) :
    (stepResult ⟨fname, rewr, helm, esc, dflt, d₁⟩ lookup content i start stop orig name).map
        Prod.fst
      = (stepResult ⟨fname, rewr, helm, esc, dflt, d₂⟩ lookup content i start stop orig
          name).map Prod.fst := by
  cases helm with
  | true =>
    cases h : is_helm_wrapped content start stop with
    | none => simp [stepResult, h]
    | some b => cases b <;> simp [stepResult, h]
  | false =>
    cases h : lookup name with
    | some v => simp [stepResult, h]
    | none => cases dflt <;> simp [stepResult, h]

/-- In helm-only mode a step never consults the lookup function, the escape
flag or the default; its replacement depends only on the template text. -/
theorem stepResult_fst_helm (fn₁ : Option (List Char)) (rw₁ esc₁ : Bool)
    (df₁ : Option (List Char)) (d₁ : Bool) (fn₂ : Option (List Char)) (rw₂ esc₂ : Bool)
    (df₂ : Option (List Char)) (d₂ : Bool)
    (f g : List Char → Option (List Char)) (content : List Char)
    (i start stop : Nat) (orig name : List Char) :
    (stepResult ⟨fn₁, rw₁, true, esc₁, df₁, d₁⟩ f content i start stop orig name).map Prod.fst
      = (stepResult ⟨fn₂, rw₂, true, esc₂, df₂, d₂⟩ g content i start stop orig name).map
          Prod.fst := by
  cases h : is_helm_wrapped content start stop with
  | none => simp [stepResult, h]
  | some b => cases b <;> simp [stepResult, h]

/-- C5: in helm-only mode the lookup source and the default are never
consulted — for every template and every pair of lookup functions and pair of
configurations with `helm_only = true`, the rendered output string is the
same, depending only on the template text. -/
theorem C5_helm_only_ignores_lookup_and_default (tpl : List Char)
    (f g : List Char → Option (List Char))
    (fn₁ : Option (List Char)) (rw₁ esc₁ : Bool) (df₁ : Option (List Char)) (d₁ : Bool)
    (fn₂ : Option (List Char)) (rw₂ esc₂ : Bool) (df₂ : Option (List Char)) (d₂ : Bool) :
    (render_template_with_lookup tpl ⟨fn₁, rw₁, true, esc₁, df₁, d₁⟩ f).map Prod.fst
      = (render_template_with_lookup tpl ⟨fn₂, rw₂, true, esc₂, df₂, d₂⟩ g).map Prod.fst := by
  unfold render_template_with_lookup
  split
  · rfl
  · exact renderLoopF_fst_congr _ _ f g tpl
      (fun i s t o n => stepResult_fst_helm fn₁ rw₁ esc₁ df₁ d₁ fn₂ rw₂ esc₂ df₂ d₂ f g tpl
        i s t o n)
      tpl.length tpl 0 0

/-- C9: debug tracing has no influence on the rendered string — rendering
with `debug = true` returns the same output string as rendering with
`debug = false` and all other fields equal; the trace is a side channel. -/
theorem C9_debug_no_influence (tpl : List Char) (lookup : List Char → Option (List Char))
    (fname : Option (List Char)) (rewr helm esc : Bool) (dflt : Option (List Char))
    (d₁ d₂ : Bool) :
    (render_template_with_lookup tpl ⟨fname, rewr, helm, esc, dflt, d₁⟩ lookup).map Prod.fst
      = (render_template_with_lookup tpl ⟨fname, rewr, helm, esc, dflt, d₂⟩ lookup).map
          Prod.fst := by
  unfold render_template_with_lookup
  split
  · rfl
  · exact renderLoopF_fst_congr _ _ lookup lookup tpl
      (fun i s t o n => stepResult_fst_debug fname rewr helm esc dflt d₁ d₂ lookup tpl
        i s t o n)
      tpl.length tpl 0 0

/-- The normal-mode replacement policy as §4.3 of the spec states it: a
resolved value is escape-transformed iff `escape` is set; a missing value
falls back to the configured default verbatim; with no default the original
matched text is kept. -/
def spec_replacement (esc : Bool) (df : Option (List Char))
    (lookup : List Char → Option (List Char)) (orig name : List Char) : List Char :=
  match lookup name with
  | some v => if esc then escape_special_chars v else v
  | none => df.getD orig

/-- Normal-mode rendering as the spec states it: scan left to right, copy
unmatched text verbatim and substitute every match by `spec_replacement`. -/
def renderNormalSpec (esc : Bool) (df : Option (List Char))
    (lookup : List Char → Option (List Char)) : List Char → List Char
  | [] => []
  | c :: rest =>
    match _h : matchAt (c :: rest) with
    | some (orig, name, after) =>
      spec_replacement esc df lookup orig name ++ renderNormalSpec esc df lookup after
    | none => c :: renderNormalSpec esc df lookup rest
termination_by l => l.length
decreasing_by
  · exact matchAt_after_length _h
  · simp

/-- Unfolding of `renderNormalSpec` at a matching position. -/
theorem renderNormalSpec_cons_some (esc : Bool) (df : Option (List Char))
    (lookup : List Char → Option (List Char)) (c : Char) (rest orig name after : List Char)
    (hm : matchAt (c :: rest) = some (orig, name, after)) :
    renderNormalSpec esc df lookup (c :: rest)
      = spec_replacement esc df lookup orig name ++ renderNormalSpec esc df lookup after := by
  rw [renderNormalSpec.eq_def]
  dsimp only
  split
  next o n a heq =>
    rw [hm] at heq
    simp only [Option.some.injEq, Prod.mk.injEq] at heq
    rw [heq.1, heq.2.1, heq.2.2]
  next heq => rw [hm] at heq; simp at heq

/-- Unfolding of `renderNormalSpec` at a non-matching position. -/
theorem renderNormalSpec_cons_none (esc : Bool) (df : Option (List Char))
    (lookup : List Char → Option (List Char)) (c : Char) (rest : List Char)
    (hm : matchAt (c :: rest) = none) :
    renderNormalSpec esc df lookup (c :: rest) = c :: renderNormalSpec esc df lookup rest := by
  rw [renderNormalSpec.eq_def]
  dsimp only
  split
  next o n a heq => rw [hm] at heq; simp at heq
  next heq => rfl

/-- In normal mode a step never panics and its replacement is exactly the
spec's three-case policy. -/
theorem stepResult_normal (fname : Option (List Char)) (rewr esc : Bool)
    (dflt : Option (List Char)) (dbg : Bool) (lookup : List Char → Option (List Char))
    (content : List Char) (i start stop : Nat) (orig name : List Char) :
    (stepResult ⟨fname, rewr, false, esc, dflt, dbg⟩ lookup content i start stop orig
        name).map Prod.fst
      = some (spec_replacement esc dflt lookup orig name) := by
  cases h : lookup name with
  | some v => simp [stepResult, spec_replacement, h]
  | none => cases dflt <;> simp [stepResult, spec_replacement, h]

/-- In normal mode the loop always succeeds and computes the spec's
rendition, whatever the fuel bound (as long as it covers the suffix). -/
theorem renderLoopF_normal (fname : Option (List Char)) (rewr esc : Bool)
    (dflt : Option (List Char)) (dbg : Bool) (lookup : List Char → Option (List Char))
    (content : List Char) :
    ∀ fuel l off i, l.length ≤ fuel →
      (renderLoopF ⟨fname, rewr, false, esc, dflt, dbg⟩ lookup content fuel l off i).map
          Prod.fst
        = some (renderNormalSpec esc dflt lookup l) := by
  intro fuel
  induction fuel with
  | zero =>
    intro l off i hl
    have : l = [] := List.length_eq_zero.mp (Nat.le_zero.mp hl)
    subst this
    simp [renderLoopF, renderNormalSpec]
  | succ fuel ih =>
    intro l off i hl
    cases l with
    | nil => simp [renderLoopF, renderNormalSpec]
    | cons c rest =>
      simp only [renderLoopF]
      cases hm : matchAt (c :: rest) with
      | none =>
        rw [renderNormalSpec_cons_none esc dflt lookup c rest hm]
        have hrec := ih rest (off + c.utf8Size) i
          (by simp only [List.length_cons] at hl; omega)
        cases hr : renderLoopF ⟨fname, rewr, false, esc, dflt, dbg⟩ lookup content fuel rest
            (off + c.utf8Size) i with
        | none => rw [hr] at hrec; simp at hrec
        | some p =>
          rw [hr] at hrec
          simp only [Option.map_some', Option.some.injEq] at hrec
          simp [hrec]
      | some r =>
        obtain ⟨orig, name, after⟩ := r
        dsimp only
        have hafter : after.length ≤ fuel := by
          have := matchAt_after_length hm
          simp only [List.length_cons] at this hl
          omega
        have hrec := ih after (off + byteLen orig) (i + 1) hafter
        have hstep := stepResult_normal fname rewr esc dflt dbg lookup content i off
          (off + byteLen orig) orig name
        cases hs : stepResult ⟨fname, rewr, false, esc, dflt, dbg⟩ lookup content i off
            (off + byteLen orig) orig name with
        | none => rw [hs] at hstep; simp at hstep
        | some p =>
          obtain ⟨repl, tr⟩ := p
          rw [hs] at hstep
          simp only [Option.map_some', Option.some.injEq] at hstep
          rw [renderNormalSpec_cons_some esc dflt lookup c rest orig name after hm]
          cases hr : renderLoopF ⟨fname, rewr, false, esc, dflt, dbg⟩ lookup content fuel
              after (off + byteLen orig) (i + 1) with
          | none => rw [hr] at hrec; simp at hrec
          | some q =>
            rw [hr] at hrec
            simp only [Option.map_some', Option.some.injEq] at hrec
            dsimp only
            simp [hstep, hrec]

/-- C3: in normal mode the rendered output is exactly the spec's per-match
policy applied to every match — a resolved value escape-transformed iff
`escape`, otherwise the default verbatim when configured, otherwise the
original matched text — and rendering never fails. -/
theorem C3_normal_mode_policy (tpl : List Char) (lookup : List Char → Option (List Char))
    (fname : Option (List Char)) (rewr esc : Bool) (dflt : Option (List Char)) (dbg : Bool) :
    (render_template_with_lookup tpl ⟨fname, rewr, false, esc, dflt, dbg⟩ lookup).map Prod.fst
      = some (renderNormalSpec esc dflt lookup tpl) := by
  unfold render_template_with_lookup
  split
  next hemp =>
    have : tpl = [] := by simpa using hemp
    subst this
    simp [renderNormalSpec]
  next hemp =>
    exact renderLoopF_normal fname rewr esc dflt dbg lookup tpl tpl.length tpl 0 0 le_rfl

/-- C4: the escape transform applies the seven literal substitutions in the
fixed source order, and on the input `a"b\c` followed by newline, carriage
return and tab it yields the literal escaped string without double-escaping
the backslashes introduced by later substitutions. -/
theorem C4_escape_order :
    escape_special_chars ['a', dquote, 'b', '\\', 'c', '\n', '\r', '\t']
      = ['a', '\\', dquote, 'b', '\\', '\\', 'c', '\\', 'n', '\\', 'r', '\\', 't'] := by
  decide

/-- C6: rendering the template consisting of one placeholder in helm-only
mode wraps it in the compatibility marker, and rendering the result again
returns it unchanged because the wrap detector reports the inner match
already wrapped. -/
theorem C6_helm_wrap_idempotent :
    render_template_with_lookup ("\x7b\x7bFOO\x7d\x7d".data)
        ⟨none, false, true, false, none, false⟩ (fun _ => none)
      = some ("\x7b\x7b`\x7b\x7bFOO\x7d\x7d`\x7d\x7d".data, [])
    ∧ render_template_with_lookup ("\x7b\x7b`\x7b\x7bFOO\x7d\x7d`\x7d\x7d".data)
        ⟨none, false, true, false, none, false⟩ (fun _ => none)
      = some ("\x7b\x7b`\x7b\x7bFOO\x7d\x7d`\x7d\x7d".data, [])
    ∧ is_helm_wrapped ("\x7b\x7b`\x7b\x7bFOO\x7d\x7d`\x7d\x7d".data) 3 10 = some true := by
  refine ⟨by decide, by decide, by decide⟩

/-- The anchored placeholder matcher with the regex character classes left as
parameters: the regex crate's `\w` and `\s` are Unicode-aware (given by the
full Unicode tables, which are not transcribed here), so the scanner is
stated generically in the word class `wp` and the whitespace class `sp`.
`matchAt` is its instance at the ASCII classes (see `matchAtC_ascii`); the
program is its instance at the crate's Unicode classes. -/
def matchAtC (wp sp : Char → Bool) : List Char → Option (List Char × List Char × List Char)
  | c1 :: c2 :: rest =>
    if c1 = lbrace ∧ c2 = lbrace then
      let ws1 := rest.takeWhile sp
      let r1 := rest.dropWhile sp
      let name := r1.takeWhile wp
      let r2 := r1.dropWhile wp
      if name = [] then none
      else
        let ws2 := r2.takeWhile sp
        match r2.dropWhile sp with
        | d1 :: d2 :: r4 =>
          if d1 = rbrace ∧ d2 = rbrace then
            some (c1 :: c2 :: (ws1 ++ name ++ ws2 ++ [d1, d2]), name, r4)
          else none
        | _ => none
    else none
  | _ => none

/-- At the ASCII classes, the generic matcher is exactly `matchAt`. -/
theorem matchAtC_ascii : ∀ l, matchAtC isWordChar isSpaceChar l = matchAt l
  | [] => rfl
  | [_] => rfl
  | _ :: _ :: _ => rfl

/-- The scan loop of `render_template_with_lookup` with the regex character
classes as parameters; identical to `renderLoopF` except that the matcher is
`matchAtC wp sp` (see `renderLoopC_ascii`). -/
def renderLoopC (wp sp : Char → Bool) (cfg : TemplateConfig)
    (lookup : List Char → Option (List Char)) (content : List Char) :
    Nat → List Char → Nat → Nat → Option (List Char × List TraceEvent)
  | 0, l, _, _ => if l.isEmpty then some ([], []) else none
  | _ + 1, [], _, _ => some ([], [])
  | fuel + 1, c :: rest, off, i =>
    match matchAtC wp sp (c :: rest) with
    | some (orig, _name, after) =>
      let stop := off + byteLen orig
      match stepResult cfg lookup content i off stop orig _name with
      | none => none
      | some (repl, tr) =>
        (renderLoopC wp sp cfg lookup content fuel after stop (i + 1)).map
          (fun p => (repl ++ p.1, tr ++ p.2))
    | none =>
      (renderLoopC wp sp cfg lookup content fuel rest (off + c.utf8Size) i).map
        (fun p => (c :: p.1, p.2))

/-- At the ASCII classes, the generic loop is exactly `renderLoopF`. -/
theorem renderLoopC_ascii (cfg : TemplateConfig) (lookup : List Char → Option (List Char))
    (content : List Char) :
    ∀ fuel l off i, renderLoopC isWordChar isSpaceChar cfg lookup content fuel l off i
      = renderLoopF cfg lookup content fuel l off i := by
  intro fuel
  induction fuel with
  | zero => intro l off i; rfl
  | succ fuel ih =>
    intro l off i
    cases l with
    | nil => rfl
    | cons c rest =>
      simp only [renderLoopC, renderLoopF, matchAtC_ascii]
      cases hm : matchAt (c :: rest) with
      | none => rw [ih]
      | some r =>
        obtain ⟨orig, name, after⟩ := r
        dsimp only
        cases hs : stepResult cfg lookup content i off (off + byteLen orig) orig name with
        | none => rfl
        | some p =>
          dsimp only
          rw [ih]

/-- Port of `render_template_with_lookup` with the regex character classes as
parameters; `render_template_with_lookup` is its ASCII instance (see
`render_template_with_lookupC_ascii`), the program the instance at the regex
crate's Unicode `\w` and `\s`. -/
def render_template_with_lookupC (wp sp : Char → Bool) (template : List Char)
    (cfg : TemplateConfig) (lookup : List Char → Option (List Char)) :
    Option (List Char × List TraceEvent) :=
  if template.isEmpty then some ([], [])
  else renderLoopC wp sp cfg lookup template template.length template 0 0

/-- At the ASCII classes, the generic renderer is exactly
`render_template_with_lookup`. -/
theorem render_template_with_lookupC_ascii (template : List Char) (cfg : TemplateConfig)
    (lookup : List Char → Option (List Char)) :
    render_template_with_lookupC isWordChar isSpaceChar template cfg lookup
      = render_template_with_lookup template cfg lookup := by
  unfold render_template_with_lookupC render_template_with_lookup
  split
  · rfl
  · exact renderLoopC_ascii cfg lookup template template.length template 0 0

/-- A template with no occurrence of the placeholder pattern under the given
character classes: no suffix admits an anchored match.  Because the pattern's
character classes are disjoint from the brace literals that follow them, a
substring matching the regex exists exactly when some suffix matches it at
its head; instantiating `wp` and `sp` with the regex crate's Unicode `\w` and
`\s` makes this the program's notion of a placeholder-free template. -/
def noPlaceholderC (wp sp : Char → Bool) : List Char → Bool
  | [] => true
  | c :: rest => (matchAtC wp sp (c :: rest)).isNone && noPlaceholderC wp sp rest

/-- With no match anywhere in the suffix, the loop copies it verbatim and
emits no trace, whatever the character classes. -/
theorem renderLoopC_noPlaceholder (wp sp : Char → Bool) (cfg : TemplateConfig)
    (lookup : List Char → Option (List Char)) (content : List Char) :
    ∀ fuel l off i, l.length ≤ fuel → noPlaceholderC wp sp l = true →
      renderLoopC wp sp cfg lookup content fuel l off i = some (l, []) := by
  intro fuel
  induction fuel with
  | zero =>
    intro l off i hl hnp
    have : l = [] := List.length_eq_zero.mp (Nat.le_zero.mp hl)
    subst this
    simp [renderLoopC]
  | succ fuel ih =>
    intro l off i hl hnp
    cases l with
    | nil => simp [renderLoopC]
    | cons c rest =>
      simp only [noPlaceholderC, Bool.and_eq_true, Option.isNone_iff_eq_none] at hnp
      simp only [renderLoopC]
      rw [hnp.1]
      rw [ih rest (off + c.utf8Size) i (by simp only [List.length_cons] at hl; omega) hnp.2]
      rfl

/-- C7: for every choice of the regex word-character and whitespace classes
(the regex crate's Unicode-aware `\w` and `\s` being one such choice), a
template containing no substring matching the placeholder pattern renders to
itself unchanged, for every configuration and lookup; in particular the empty
template renders to the empty string. -/
theorem C7_no_placeholder_identity (wp sp : Char → Bool) (tpl : List Char)
    (cfg : TemplateConfig) (lookup : List Char → Option (List Char))
    (h : noPlaceholderC wp sp tpl = true) :
    render_template_with_lookupC wp sp tpl cfg lookup = some (tpl, []) := by
  unfold render_template_with_lookupC
  split
  next hemp =>
    have : tpl = [] := by simpa using hemp
    rw [this]
  next hemp =>
    exact renderLoopC_noPlaceholder wp sp cfg lookup tpl tpl.length tpl 0 0 le_rfl h

/-- Witness for C7 at concrete classes and a concrete placeholder-free
template. -/
theorem C7_witness :
    noPlaceholderC isWordChar isSpaceChar ("hello world!".data) = true
    ∧ render_template_with_lookupC isWordChar isSpaceChar ("hello world!".data)
        ⟨none, false, false, true, some ['d'], true⟩ (fun _ => some ['v'])
      = some ("hello world!".data, []) :=
  ⟨by decide,
    C7_no_placeholder_identity isWordChar isSpaceChar ("hello world!".data)
      ⟨none, false, false, true, some ['d'], true⟩ (fun _ => some ['v']) (by decide)⟩

/-- Word characters are never whitespace characters. -/
theorem word_not_space {c : Char} (h : isWordChar c = true) : isSpaceChar c = false := by
  cases hiss : isSpaceChar c
  · rfl
  · exfalso
    simp only [isSpaceChar, Bool.or_eq_true, decide_eq_true_eq] at hiss
    rcases hiss with ((((h1 | h1) | h1) | h1) | h1) | h1 <;> subst h1 <;>
      exact absurd h (by decide)

/-- Splitting an all-word-character list followed by the two closing braces. -/
theorem word_append_braces (name : List Char) (h : ∀ c ∈ name, isWordChar c = true) :
    (name ++ [rbrace, rbrace]).takeWhile isWordChar = name
    ∧ (name ++ [rbrace, rbrace]).dropWhile isWordChar = [rbrace, rbrace] := by
  induction name with
  | nil => exact ⟨by decide, by decide⟩
  | cons c cs ih =>
    have hc : isWordChar c = true := h c (by simp)
    have ihh := ih (fun d hd => h d (by simp [hd]))
    refine ⟨?_, ?_⟩
    · simp only [List.cons_append, List.takeWhile_cons, hc, if_true, ihh.1]
    · simp only [List.cons_append, List.dropWhile_cons, hc, if_true, ihh.2]

/-- The anchored regex match on a bare placeholder made of a nonempty
word-character name: the whole text is consumed as the match. -/
theorem matchAt_placeholder (name : List Char) (h1 : name ≠ [])
    (h2 : ∀ c ∈ name, isWordChar c = true) :
    matchAt (lbrace :: lbrace :: (name ++ [rbrace, rbrace]))
      = some (lbrace :: lbrace :: (name ++ [rbrace, rbrace]), name, []) := by
  obtain ⟨n₀, name', rfl⟩ := List.exists_cons_of_ne_nil h1
  have h₀ : isWordChar n₀ = true := h2 n₀ (by simp)
  have hsp : isSpaceChar n₀ = false := word_not_space h₀
  have e3 := (word_append_braces (n₀ :: name') h2).1
  have e4 := (word_append_braces (n₀ :: name') h2).2
  have hrb : isSpaceChar rbrace = false := by decide
  simp only [List.cons_append] at e3 e4
  simp [matchAt, List.takeWhile_cons, List.dropWhile_cons, hsp, hrb, e3, e4]

/-- Looking a key up in the explicit map parsed from a `.env`-style file;
first binding wins (the spec requires the keys to be unique). -/
def lookupMap : List (List Char × List Char) → List Char → Option (List Char)
  | [], _ => none
  | (k, v) :: rest, key => if k = key then some v else lookupMap rest key

/-- Modelled from the spec: the library `TemplateConfig` in src/src/lib.rs
has no `env_vars` field although src/src/main.rs constructs one, so the
map-aware lookup selection is not part of the library source.  Per §3 and §6
of the spec, a configured explicit key/value map is the only resolution
source when present, and resolution falls back to the process environment
(here an arbitrary function `procEnv`) only when the map is absent. -/
def selectLookup (envVars : Option (List (List Char × List Char)))
    (procEnv : List Char → Option (List Char)) : List Char → Option (List Char) :=
  match envVars with
  | some m => fun name => lookupMap m name
  | none => procEnv

/-- Unfolding of `renderNormalSpec` on the empty template. -/
theorem renderNormalSpec_nil (esc : Bool) (df : Option (List Char))
    (lookup : List Char → Option (List Char)) :
    renderNormalSpec esc df lookup [] = [] := by
  simp [renderNormalSpec]

/-- C2: with an explicit key/value map supplied, rendering resolves names
using only that map — changing the process environment never changes the
result, and a name bound to `v` in the map but to a different `w` in the
environment is substituted by the map's `v`. -/
theorem C2_explicit_map_overrides_env (tpl : List Char)
    (fname : Option (List Char)) (rewr helm esc dbg : Bool) (dflt : Option (List Char))
    (m : List (List Char × List Char)) (p₁ p₂ : List Char → Option (List Char))
    (name v w : List Char)
    (hv : lookupMap m name = some v) (hw : p₁ name = some w) (hne : w ≠ v)
    (h1 : name ≠ []) (h2 : ∀ c ∈ name, isWordChar c = true) :
    render_template_with_lookup tpl ⟨fname, rewr, helm, esc, dflt, dbg⟩
        (selectLookup (some m) p₁)
      = render_template_with_lookup tpl ⟨fname, rewr, helm, esc, dflt, dbg⟩
        (selectLookup (some m) p₂)
    ∧ (render_template_with_lookup (lbrace :: lbrace :: (name ++ [rbrace, rbrace]))
        ⟨fname, rewr, false, false, dflt, dbg⟩ (selectLookup (some m) p₁)).map Prod.fst
      = some v := by
  refine ⟨rfl, ?_⟩
  have hT : render_template_with_lookup (lbrace :: lbrace :: (name ++ [rbrace, rbrace]))
      ⟨fname, rewr, false, false, dflt, dbg⟩ (selectLookup (some m) p₁)
      = renderLoopF ⟨fname, rewr, false, false, dflt, dbg⟩ (selectLookup (some m) p₁)
        (lbrace :: lbrace :: (name ++ [rbrace, rbrace]))
        (lbrace :: lbrace :: (name ++ [rbrace, rbrace])).length
        (lbrace :: lbrace :: (name ++ [rbrace, rbrace])) 0 0 := by
    unfold render_template_with_lookup
    rw [if_neg (by simp)]
  rw [hT]
  rw [renderLoopF_normal fname rewr false dflt dbg (selectLookup (some m) p₁)
    (lbrace :: lbrace :: (name ++ [rbrace, rbrace]))
    (lbrace :: lbrace :: (name ++ [rbrace, rbrace])).length
    (lbrace :: lbrace :: (name ++ [rbrace, rbrace])) 0 0 le_rfl]
  rw [renderNormalSpec_cons_some false dflt (selectLookup (some m) p₁) lbrace
    (lbrace :: (name ++ [rbrace, rbrace])) (lbrace :: lbrace :: (name ++ [rbrace, rbrace]))
    name [] (matchAt_placeholder name h1 h2)]
  have hv' : selectLookup (some m) p₁ name = some v := hv
  simp [spec_replacement, hv', renderNormalSpec_nil]

/-- Witness for C2 at a concrete map, environment and template. -/
theorem C2_witness :
    (render_template_with_lookup (lbrace :: lbrace :: ("FOO".data ++ [rbrace, rbrace]))
        ⟨none, false, false, false, none, false⟩
        (selectLookup (some [("FOO".data, "bar".data)]) (fun _ => some ("baz".data)))).map
        Prod.fst
      = some ("bar".data) :=
  (C2_explicit_map_overrides_env [] none false false false false none
      [("FOO".data, "bar".data)] (fun _ => some ("baz".data)) (fun _ => some ("baz".data))
      ("FOO".data) ("bar".data) ("baz".data) (by decide) rfl (by decide) (by decide)
      (by decide)).2

/-- C1: the core is not total — in helm-only mode, on the well-formed UTF-8
template with two two-byte characters before the placeholder and three
characters after it, the wrap check slices the template at byte offset
`start - 3 = 1`, which is not a character boundary, so the Rust code panics
(modelled as `none`) instead of returning an output string. -/
theorem C1_multibyte_wrap_check_panics :
    render_template_with_lookup ("éé\x7b\x7bFOO\x7d\x7dxxx".data)
        ⟨none, false, true, false, none, false⟩ (fun _ => none) = none
    ∧ is_helm_wrapped ("éé\x7b\x7bFOO\x7d\x7dxxx".data) 4 11 = none := by
  refine ⟨by decide, by decide⟩

/-- Rust `str::trim`, over the modelled whitespace class. -/
def trimAscii (l : List Char) : List Char :=
  ((l.dropWhile isSpaceChar).reverse.dropWhile isSpaceChar).reverse

/-- Helper for `rustLines`: `acc` holds the current line reversed; a line
terminated by a newline has a preceding carriage return stripped, as Rust
`str::lines` does for a CRLF ending. -/
def splitLinesAux : List Char → List Char → List (List Char)
  | [], acc => [acc.reverse]
  | c :: rest, acc =>
    if c = '\n' then
      (match acc with
        | cr :: acc' => if cr = '\r' then acc'.reverse else acc.reverse
        | [] => []) :: splitLinesAux rest []
    else splitLinesAux rest (c :: acc)

/-- Rust `str::lines`: split at newlines, strip a carriage return before each
newline, and do not produce a final empty line for a trailing newline. -/
def rustLines (text : List Char) : List (List Char) :=
  let parts := splitLinesAux text []
  if parts.getLast? = some [] then parts.dropLast else parts

/-- Rust `trimmed.strip_prefix("export ").unwrap_or(trimmed)`. -/
def stripExport (l : List Char) : List Char :=
  if l.take 7 = "export ".data then l.drop 7 else l

/-- Rust `splitn(2, '=')`: the text before the first equals sign, and the
text after it when one occurs. -/
def splitEq : List Char → List Char × Option (List Char)
  | [] => ([], none)
  | c :: rest =>
    if c = '=' then ([], some rest)
    else
      let p := splitEq rest
      (c :: p.1, p.2)

/-- The quote-stripping step of `load_env_file` (src/src/main.rs lines
180-186): when the value starts and ends with the same quote character the
code slices `value_raw[1..len - 1]`; on a value that is exactly one quote
character this is the reversed range `[1..0]` and Rust panics, modelled as
`none`. -/
def stripQuotes (v : List Char) : Option (List Char) :=
  if (v.head? = some dquote ∧ v.getLast? = some dquote)
      ∨ (v.head? = some squote ∧ v.getLast? = some squote) then
    if 2 ≤ v.length then some ((v.drop 1).dropLast) else none
  else some v

/-- Outcome of one line of the .env loader. -/
inductive LineOutcome where
  | skipLine
  | warnLine
  | entry (k v : List Char)
  | aborts
  deriving DecidableEq

/-- The body of the `load_env_file` loop (src/src/main.rs lines 153-189) for
one line: skip blank and `#` lines, strip an optional `export ` prefix, warn
and skip when the text before the first equals sign is blank, otherwise
produce the entry with the trimmed, quote-stripped value. -/
def processLine (line : List Char) : LineOutcome :=
  let trimmed := trimAscii line
  if trimmed = [] then LineOutcome.skipLine
  else if trimmed.head? = some '#' then LineOutcome.skipLine
  else
    let without := stripExport trimmed
    let key := trimAscii (splitEq without).1
    if key = [] then LineOutcome.warnLine
    else
      let value_raw := trimAscii ((splitEq without).2.getD [])
      match stripQuotes value_raw with
      | none => LineOutcome.aborts
      | some v => LineOutcome.entry key v

/-- Rust `HashMap::insert`: replace the binding when the key is present,
append it otherwise. -/
def mapInsert (map : List (List Char × List Char)) (k v : List Char) :
    List (List Char × List Char) :=
  if map.any (fun p => decide (p.1 = k)) then
    map.map (fun p => if p.1 = k then (k, v) else p)
  else map ++ [(k, v)]

/-- The `load_env_file` loop over the lines, carrying the 1-based line number
for warnings; `none` models the panic that aborts the whole load. -/
def loadEnvGo : List (List Char) → Nat → List (List Char × List Char) → List Nat →
    Option (List (List Char × List Char) × List Nat)
  | [], _, map, warns => some (map, warns)
  | line :: rest, n, map, warns =>
    match processLine line with
    | LineOutcome.skipLine => loadEnvGo rest (n + 1) map warns
    | LineOutcome.warnLine => loadEnvGo rest (n + 1) map (warns ++ [n])
    | LineOutcome.entry k v => loadEnvGo rest (n + 1) (mapInsert map k v) warns
    | LineOutcome.aborts => none

/-- Port of `load_env_file` (src/src/main.rs lines 149-192) on the file's
text: returns the parsed map together with the warned line numbers, or `none`
when the loader panics. -/
def load_env_file (text : List Char) :
    Option (List (List Char × List Char) × List Nat) :=
  loadEnvGo (rustLines text) 1 [] []

/-- The key of a line: the trimmed text before the first equals sign of the
trimmed, `export `-stripped line. -/
def lineKey (line : List Char) : List Char :=
  trimAscii (splitEq (stripExport (trimAscii line))).1

/-- The raw (trimmed, not yet unquoted) value of a line; empty when the line
has no equals sign. -/
def lineValueRaw (line : List Char) : List Char :=
  trimAscii ((splitEq (stripExport (trimAscii line))).2.getD [])

/-- The per-line policy of the .env loader as the amended claim states it:
blank lines and lines starting with a number sign are ignored; an optional
leading `export ` is stripped; a line whose key (the trimmed text before the
first equals sign, the whole line counting as key when no equals sign occurs)
is blank is skipped with a warning, adding no entry; the whole load aborts
when the trimmed value is exactly one quote character; otherwise the line
yields an entry whose value has one level of matching single or double quotes
stripped, a line without an equals sign yielding its key with an empty
value. -/
def specLineOutcome (line : List Char) : LineOutcome :=
  if trimAscii line = [] ∨ (trimAscii line).head? = some '#' then LineOutcome.skipLine
  else if lineKey line = [] then LineOutcome.warnLine
  else if lineValueRaw line = [dquote] ∨ lineValueRaw line = [squote] then LineOutcome.aborts
  else if ((lineValueRaw line).head? = some dquote
        ∧ (lineValueRaw line).getLast? = some dquote)
      ∨ ((lineValueRaw line).head? = some squote
        ∧ (lineValueRaw line).getLast? = some squote) then
    LineOutcome.entry (lineKey line) (((lineValueRaw line).drop 1).dropLast)
  else LineOutcome.entry (lineKey line) (lineValueRaw line)

/-- Characterisation of the quote-stripping step: it panics exactly on a
value that is a single quote character. -/
theorem stripQuotes_eq (v : List Char) :
    stripQuotes v
      = if v = [dquote] ∨ v = [squote] then none
        else if (v.head? = some dquote ∧ v.getLast? = some dquote)
            ∨ (v.head? = some squote ∧ v.getLast? = some squote) then
          some ((v.drop 1).dropLast)
        else some v := by
  match v with
  | [] => simp [stripQuotes]
  | [c] =>
    by_cases hdq : c = dquote
    · subst hdq; decide
    · by_cases hsq : c = squote
      · subst hsq; decide
      · simp [stripQuotes, hdq, hsq]
  | c :: d :: t =>
    have hne1 : c :: d :: t ≠ [dquote] := by simp
    have hne2 : c :: d :: t ≠ [squote] := by simp
    have h2 : 2 ≤ (c :: d :: t).length := by simp only [List.length_cons]; omega
    by_cases hcond : ((c :: d :: t).head? = some dquote
          ∧ (c :: d :: t).getLast? = some dquote)
        ∨ ((c :: d :: t).head? = some squote ∧ (c :: d :: t).getLast? = some squote)
    · simp [stripQuotes, hcond, hne1, hne2, h2]
    · simp [stripQuotes, hcond, hne1, hne2]

/-- C8 counterexample: ran on the one-line file `FOO` (no equals sign, so not
of the form KEY=VALUE) the loader does not skip the line but adds the entry
`FOO` with empty value; and on the one-line file `FOO="` the whole load
aborts with a panic instead of skipping the line. -/
theorem C8_counterexample :
    load_env_file ("FOO".data) = some ([("FOO".data, [])], [])
    ∧ load_env_file ("FOO=".data ++ [dquote]) = none :=
  ⟨by decide, by decide⟩

/-- C8 (amended): every line of the .env loader is processed by exactly the
amended per-line policy — blank and `#` lines ignored, optional `export `
stripped, blank-key lines skipped with a warning, a lone-quote value aborting
the load, and every other line yielding its KEY/VALUE entry with one level of
matching quotes stripped (a line without an equals sign yielding an empty
value). -/
theorem C8_env_line_policy (line : List Char) : processLine line = specLineOutcome line := by
  simp only [processLine, specLineOutcome, lineKey, lineValueRaw]
  by_cases ht : trimAscii line = []
  · simp [ht]
  · by_cases hh : (trimAscii line).head? = some '#'
    · simp [ht, hh]
    · by_cases hk : trimAscii (splitEq (stripExport (trimAscii line))).1 = []
      · simp [ht, hh, hk]
      · generalize trimAscii ((splitEq (stripExport (trimAscii line))).2.getD []) = val
        rw [stripQuotes_eq val]
        by_cases hA : val = [dquote] ∨ val = [squote]
        · simp [ht, hh, hk, hA]
        · by_cases hB : (val.head? = some dquote ∧ val.getLast? = some dquote)
              ∨ (val.head? = some squote ∧ val.getLast? = some squote)
          · simp [ht, hh, hk, hA, hB]
          · simp [ht, hh, hk, hA, hB]

/-- The observable output action of `rewrite_or_print`. -/
inductive OutputAction where
  | writeFile (name : List Char) (bytes : List Char)
  | printOut (s : List Char)
  deriving DecidableEq

/-- Port of `rewrite_or_print` (src/src/lib.rs lines 194-219): with rewrite
enabled, a non-empty content and a configured file name, `writeln!` writes the
content plus one newline to the file; in every other case `print!` emits the
content to standard output unchanged. -/
def rewrite_or_print (content : List Char) (cfg : TemplateConfig) : OutputAction :=
  if cfg.rewrite && !content.isEmpty then
    match cfg.file_name with
    | some name => OutputAction.writeFile name (content ++ ['\n'])
    | none => OutputAction.printOut content
  else OutputAction.printOut content

/-- C10: the two output sinks differ by one trailing newline — with rewrite
enabled, a file name set and non-empty rendered output the file receives the
rendered string followed by a newline; in every other case the rendered
string goes to standard output exactly as-is and no file is written. -/
theorem C10_output_sinks (content : List Char) (cfg : TemplateConfig) :
    (∀ n, cfg.rewrite = true → cfg.file_name = some n → content ≠ [] →
      rewrite_or_print content cfg = OutputAction.writeFile n (content ++ ['\n']))
    ∧ ((cfg.rewrite = false ∨ cfg.file_name = none ∨ content = []) →
      rewrite_or_print content cfg = OutputAction.printOut content) := by
  constructor
  · intro n hr hf hne
    have hemp : content.isEmpty = false := by
      cases content
      · exact absurd rfl hne
      · rfl
    simp [rewrite_or_print, hr, hf, hemp]
  · intro h
    rcases h with h | h | h
    · simp [rewrite_or_print, h]
    · cases hc : (cfg.rewrite && !content.isEmpty) <;> simp [rewrite_or_print, h, hc]
    · simp [rewrite_or_print, h]

/-- Witness for C10 at a concrete content and two concrete configurations. -/
theorem C10_witness :
    rewrite_or_print ['x'] ⟨some ['f'], true, false, false, none, false⟩
      = OutputAction.writeFile ['f'] ['x', '\n']
    ∧ rewrite_or_print ['x'] ⟨some ['f'], false, false, false, none, false⟩
      = OutputAction.printOut ['x'] :=
  ⟨(C10_output_sinks ['x'] ⟨some ['f'], true, false, false, none, false⟩).1 ['f'] rfl rfl
      (by decide),
    (C10_output_sinks ['x'] ⟨some ['f'], false, false, false, none, false⟩).2 (Or.inl rfl)⟩

end ApplyEnv
